import Mathlib

/- Verification of the Azahar thread-pool core against its design document.

   Embedded source:
   - src/common/thread_pool.cpp and the class `ThreadPool` in its header:
     worker loop, `Enqueue`, `WaitForTasks`, `GetThreadCount`, destructor,
     and the process-wide accessor (`InitializeThreadPool`, `GetThreadPool`,
     `ShutdownThreadPool`);
   - src/common/cpu_affinity.cpp: `ResetCoreAffinity` (the Android branch);
   - src/common/aligned_allocator.h: the size round-up in `AlignedAlloc`.

   Tasks are identified by the order of their `Enqueue` call (id 0 first).
   A task body's outcome is a value `beh t : Except String Nat`: `ok` models a
   normal return, `error` a thrown C++ exception.  Mutex-protected sections of
   the C++ code become atomic steps of a small-step relation; the interleaving
   of worker threads and submitters is the nondeterminism of that relation. -/

namespace Common

/-- Phase of one worker thread of the pool (the lambda of the `ThreadPool`
constructor): blocked on the condition variable waiting for work or stop,
running a claimed task outside the lock, or returned from the loop. -/
inductive WPhase where
  | waiting : WPhase
  | running : Nat → WPhase
  | done : WPhase
deriving DecidableEq

/-- State of one `ThreadPool` object, plus instrumentation.  `tasks` is the
FIFO `std::queue<std::function<void()>>` holding the ids of pending tasks
(head = front of the queue); `stop` is the atomic stop flag; `nextId` numbers
`Enqueue` calls in order; `workers` is the `std::vector<std::thread>` by
phase; `futures t` is the shared state of task `t`'s `std::future` (`none`
while no outcome is stored).  `claimed` records, in order, the ids popped
from the queue by workers under the queue lock (the instrumented claim
counter of the design document), and `executed` records the ids whose bodies
have finished running, in completion order. -/
structure ThreadPool where
  tasks : List Nat
  stop : Bool
  nextId : Nat
  workers : List WPhase
  futures : Nat → Option (Except String Nat)
  claimed : List Nat
  executed : List Nat

/-- `ThreadPool::ThreadPool(num_threads)`: sets `stop` to `false` and spawns
exactly `num_threads` workers, each entering the wait loop; the constructor
performs no validation of `num_threads` (no rejection, no clamping). -/
def ThreadPool.init (num_threads : Nat) : ThreadPool where
  tasks := []
  stop := false
  nextId := 0
  workers := List.replicate num_threads WPhase.waiting
  futures := fun _ => none
  claimed := []
  executed := []

/-- `ThreadPool::GetThreadCount()`: `workers.size()`. -/
def ThreadPool.GetThreadCount (s : ThreadPool) : Nat :=
  s.workers.length

/-- `ThreadPool::Enqueue` at queue level: under `queue_mutex`, if `stop` is
set it throws `std::runtime_error("Enqueue on stopped ThreadPool")` and the
pool state is untouched; otherwise the packaged task is appended at the back
of the queue and the future handle (here: the task id) is returned. -/
def ThreadPool.Enqueue (s : ThreadPool) : ThreadPool × Except String Nat :=
  if s.stop then
    (s, Except.error "Enqueue on stopped ThreadPool")
  else
    ({ s with tasks := s.tasks ++ [s.nextId], nextId := s.nextId + 1 },
     Except.ok s.nextId)

/-- Small-step semantics of one pool under concurrent use.  `beh t` is the
outcome of task `t`'s body.  Steps:
* `enqueue`: a successful `Enqueue` (the failing one leaves the state
  unchanged, see `ThreadPool.Enqueue`);
* `claim`: a waiting worker, woken with the queue non-empty, pops the front
  task under the lock (worker loop, lines with `tasks.front()` / `tasks.pop()`);
* `finish`: a worker finishes running its claimed task outside the lock;
  `std::packaged_task::operator()` stores the body's outcome - normal return
  or thrown exception alike - into the task's future, and the worker returns
  to the top of the loop;
* `exit`: a waiting worker, observing `stop && tasks.empty()` under the lock,
  returns from the loop;
* `setStop`: the destructor sets the stop flag under the lock (after which it
  notifies all workers and joins them). -/
inductive ThreadPool.Step (beh : Nat → Except String Nat) :
    ThreadPool → ThreadPool → Prop where
  | enqueue (s : ThreadPool) (h : s.stop = false) :
      ThreadPool.Step beh s (ThreadPool.Enqueue s).1
  | claim (s : ThreadPool) (w1 w2 : List WPhase) (t : Nat) (rest : List Nat)
      (hw : s.workers = w1 ++ WPhase.waiting :: w2)
      (ht : s.tasks = t :: rest) :
      ThreadPool.Step beh s
        { s with
          workers := w1 ++ WPhase.running t :: w2,
          tasks := rest,
          claimed := s.claimed ++ [t] }
  | finish (s : ThreadPool) (w1 w2 : List WPhase) (t : Nat)
      (hw : s.workers = w1 ++ WPhase.running t :: w2) :
      ThreadPool.Step beh s
        { s with
          workers := w1 ++ WPhase.waiting :: w2,
          executed := s.executed ++ [t],
          futures := fun u => if u = t then some (beh t) else s.futures u }
  | exit (s : ThreadPool) (w1 w2 : List WPhase)
      (hw : s.workers = w1 ++ WPhase.waiting :: w2)
      (hstop : s.stop = true) (hempty : s.tasks = []) :
      ThreadPool.Step beh s { s with workers := w1 ++ WPhase.done :: w2 }
  | setStop (s : ThreadPool) :
      ThreadPool.Step beh s { s with stop := true }

/-- States reachable from a freshly constructed pool of `n` workers, under
task behaviour `beh`. -/
def ThreadPool.ReachableFrom (n : Nat) (beh : Nat → Except String Nat)
    (s : ThreadPool) : Prop :=
  Relation.ReflTransGen (ThreadPool.Step beh) (ThreadPool.init n) s

/-- `ThreadPool::WaitForTasks()`: each loop iteration takes `queue_mutex` and
observes the queue; the loop breaks (the call returns) at the first
observation of an empty queue, and otherwise unlocks, yields, and observes
again.  `obs` is the sequence of queue snapshots the loop observes, each
taken under the lock at some reachable state; the result says whether the
call has returned within those observations. -/
def ThreadPool.WaitForTasks : List (List Nat) → Bool
  | [] => false
  | q :: rest => if q.isEmpty then true else ThreadPool.WaitForTasks rest

/-- `InitializeThreadPool` (thread_pool.cpp): under `g_pool_mutex`, if the
global pool is absent, create it with `num_threads` workers; otherwise leave
the existing pool untouched (no error is reported). -/
def InitializeThreadPool (g : Option ThreadPool) (num_threads : Nat) :
    Option ThreadPool :=
  match g with
  | none => some (ThreadPool.init num_threads)
  | some p => some p

/-- `GetThreadPool` (thread_pool.cpp): under `g_pool_mutex`, auto-create the
pool with 3 threads when absent (logged as a warning, not an error); returns
the updated handle and the pool the reference points at. -/
def GetThreadPool (g : Option ThreadPool) : Option ThreadPool × ThreadPool :=
  match g with
  | none => (some (ThreadPool.init 3), ThreadPool.init 3)
  | some p => (some p, p)

/-- `ShutdownThreadPool` (thread_pool.cpp): under `g_pool_mutex`, if a pool
is present, destroy it (`g_thread_pool.reset()` runs `~ThreadPool`, which
joins each joinable worker thread exactly once) and clear the handle; when
nothing is initialized, do nothing.  The second component counts the worker
threads joined by this call. -/
def ShutdownThreadPool (g : Option ThreadPool) : Option ThreadPool × Nat :=
  match g with
  | none => (none, 0)
  | some p => (none, p.GetThreadCount)

/-- OS context observed by `ResetCoreAffinity` at call time:
`nprocessorsConf` is what `sysconf(_SC_NPROCESSORS_CONF)` returns (the number
of processors the kernel is configured for, which counts CPUs that may be
offline or outside the process's allowed cpuset), and `availableCpus` is the
set of logical CPUs currently available to the process - the notion the
design document uses - which on a real system need not equal
`{0, ..., nprocessorsConf - 1}`. -/
structure AffinityEnv where
  nprocessorsConf : Nat
  availableCpus : Finset Nat

/-- `ResetCoreAffinity` (cpu_affinity.cpp, Android branch): `CPU_ZERO`, then
`CPU_SET(i)` for every `i` in `[0, num_cores)` where
`num_cores = sysconf(_SC_NPROCESSORS_CONF)`; the built mask is then handed to
`sched_setaffinity` for the calling thread.  Returns the mask built. -/
def ResetCoreAffinity (env : AffinityEnv) : Finset Nat :=
  (List.range env.nprocessorsConf).foldl (fun acc i => insert i acc) ∅

/-- The mask the design document prescribes for `ReleaseAffinity`, stated
from its words for comparison with `ResetCoreAffinity`: exactly the logical
CPUs currently available to the process. -/
def releaseAffinityMask (env : AffinityEnv) : Finset Nat :=
  env.availableCpus

/-- Modulus of `size_t` arithmetic on the 64-bit targets this code is built
for (Windows, Android, Linux, 64-bit). -/
def SIZE_T_MOD : Nat := 2 ^ 64

/-- The size `AlignedAlloc` (aligned_allocator.h) passes to the underlying
allocator: `size_t aligned_size = (size + alignment - 1) & ~(alignment - 1)`
in `size_t` arithmetic.  For `1 ≤ alignment ≤ 2^64`, the 64-bit complement
`~(alignment - 1)` is `2^64 - alignment`. -/
def alignedSize (size alignment : Nat) : Nat :=
  ((size + alignment - 1) % SIZE_T_MOD) &&& (SIZE_T_MOD - alignment)

/-- The ids of the tasks currently being executed by workers (outside the
queue lock). -/
def runningIds (ws : List WPhase) : List Nat :=
  ws.filterMap fun w =>
    match w with
    | WPhase.running t => some t
    | _ => none

/-- Whether a worker thread has returned from its loop. -/
def isDone : WPhase → Bool
  | WPhase.done => true
  | _ => false

/-- How many workers of the vector have returned from their loop. -/
def numDone (ws : List WPhase) : Nat :=
  ws.countP isDone

lemma runningIds_append (l1 l2 : List WPhase) :
    runningIds (l1 ++ l2) = runningIds l1 ++ runningIds l2 :=
  List.filterMap_append l1 l2 _

lemma runningIds_cons_waiting (l : List WPhase) :
    runningIds (WPhase.waiting :: l) = runningIds l := rfl

lemma runningIds_cons_running (t : Nat) (l : List WPhase) :
    runningIds (WPhase.running t :: l) = t :: runningIds l := rfl

lemma runningIds_cons_done (l : List WPhase) :
    runningIds (WPhase.done :: l) = runningIds l := rfl

lemma runningIds_replicate_waiting (n : Nat) :
    runningIds (List.replicate n WPhase.waiting) = [] := by
  induction n with
  | zero => rfl
  | succ n ih => rw [List.replicate_succ, runningIds_cons_waiting, ih]

/-- A stopped pool in which one worker is still waiting: the destructor has
set the stop flag and nothing is queued. -/
def stoppedPool : ThreadPool where
  tasks := []
  stop := true
  nextId := 0
  workers := [WPhase.waiting]
  futures := fun _ => none
  claimed := []
  executed := []

/-- Membership in the mask built by the `CPU_SET` loop of
`ResetCoreAffinity`. -/
lemma mem_foldl_insert (l : List Nat) (acc : Finset Nat) (x : Nat) :
    x ∈ l.foldl (fun a i => insert i a) acc ↔ x ∈ l ∨ x ∈ acc := by
  induction l generalizing acc with
  | nil => simp
  | cons a l ih =>
      simp only [List.foldl_cons, ih, Finset.mem_insert, List.mem_cons]
      tauto

/-- One step preserves the queue accounting: the ids claimed so far followed
by the ids still queued are exactly the ids `Enqueue` has handed out, in
order. -/
lemma step_claimed_tasks {beh : Nat → Except String Nat}
    {s s' : ThreadPool} (h : ThreadPool.Step beh s s')
    (inv : s.claimed ++ s.tasks = List.range s.nextId) :
    s'.claimed ++ s'.tasks = List.range s'.nextId := by
  cases h with
  | enqueue hstop =>
      simp only [ThreadPool.Enqueue, hstop, Bool.false_eq_true, if_false]
      rw [List.range_succ, ← List.append_assoc, inv]
  | claim w1 w2 t rest hw ht =>
      simpa [List.append_assoc, ← ht] using inv
  | finish w1 w2 t hw => exact inv
  | exit w1 w2 hw hstop hempty => exact inv
  | setStop => exact inv

/-- One step preserves: once some worker has exited, the stop flag is set and
the queue is empty (and stays so). -/
lemma step_done_stop {beh : Nat → Except String Nat}
    {s s' : ThreadPool} (h : ThreadPool.Step beh s s')
    (inv : WPhase.done ∈ s.workers → s.stop = true ∧ s.tasks = []) :
    WPhase.done ∈ s'.workers → s'.stop = true ∧ s'.tasks = [] := by
  cases h with
  | enqueue hstop =>
      intro hdone
      simp only [ThreadPool.Enqueue, hstop, Bool.false_eq_true, if_false] at hdone
      exact absurd (inv hdone).1 (by simp [hstop])
  | claim w1 w2 t rest hw ht =>
      intro hdone
      simp only [List.mem_append, List.mem_cons] at hdone
      have hmem : WPhase.done ∈ s.workers := by
        rw [hw, List.mem_append, List.mem_cons]
        rcases hdone with h1 | h2 | h3
        · exact Or.inl h1
        · exact absurd h2 (by simp)
        · exact Or.inr (Or.inr h3)
      have h4 := (inv hmem).2
      simp [ht] at h4
  | finish w1 w2 t hw =>
      intro hdone
      simp only [List.mem_append, List.mem_cons] at hdone
      have hmem : WPhase.done ∈ s.workers := by
        rw [hw, List.mem_append, List.mem_cons]
        rcases hdone with h1 | h2 | h3
        · exact Or.inl h1
        · exact absurd h2 (by simp)
        · exact Or.inr (Or.inr h3)
      exact inv hmem
  | exit w1 w2 hw hstop hempty =>
      intro _
      exact ⟨hstop, hempty⟩
  | setStop =>
      intro hdone
      exact ⟨rfl, (inv hdone).2⟩

/-- One step preserves the execution accounting: counting multiplicities,
the executed ids together with the ids currently being run are exactly the
claimed ids. -/
lemma step_executed_claimed {beh : Nat → Except String Nat}
    {s s' : ThreadPool} (h : ThreadPool.Step beh s s')
    (inv : ∀ x, List.count x s.executed + List.count x (runningIds s.workers) =
      List.count x s.claimed) :
    ∀ x, List.count x s'.executed + List.count x (runningIds s'.workers) =
      List.count x s'.claimed := by
  intro x
  cases h with
  | enqueue hstop =>
      simp only [ThreadPool.Enqueue, hstop, Bool.false_eq_true, if_false]
      exact inv x
  | claim w1 w2 t rest hw ht =>
      have h0 := inv x
      rw [hw] at h0
      rw [runningIds_append, runningIds_cons_waiting] at h0
      rw [runningIds_append, runningIds_cons_running]
      simp only [List.count_append, List.count_cons, List.count_nil] at h0 ⊢
      by_cases htx : t = x <;> simp [htx] at h0 ⊢ <;> omega
  | finish w1 w2 t hw =>
      have h0 := inv x
      rw [hw] at h0
      rw [runningIds_append, runningIds_cons_running] at h0
      rw [runningIds_append, runningIds_cons_waiting]
      simp only [List.count_append, List.count_cons, List.count_nil] at h0 ⊢
      by_cases htx : t = x <;> simp [htx] at h0 ⊢ <;> omega
  | exit w1 w2 hw hstop hempty =>
      have h0 := inv x
      rw [hw] at h0
      rw [runningIds_append, runningIds_cons_waiting] at h0
      rw [runningIds_append, runningIds_cons_done]
      exact h0
  | setStop => exact inv x

/-- One step preserves result delivery: every executed task's future holds
the outcome of that task's body. -/
lemma step_futures_executed {beh : Nat → Except String Nat}
    {s s' : ThreadPool} (h : ThreadPool.Step beh s s')
    (inv : ∀ t ∈ s.executed, s.futures t = some (beh t)) :
    ∀ t ∈ s'.executed, s'.futures t = some (beh t) := by
  cases h with
  | enqueue hstop =>
      simp only [ThreadPool.Enqueue, hstop, Bool.false_eq_true, if_false]
      exact inv
  | claim w1 w2 t rest hw ht => exact inv
  | finish w1 w2 t hw =>
      intro u hu
      simp only [List.mem_append, List.mem_singleton] at hu
      by_cases hut : u = t
      · simp [hut]
      · rcases hu with hu | hu
        · simpa [hut] using inv u hu
        · exact absurd hu hut
  | exit w1 w2 hw hstop hempty => exact inv
  | setStop => exact inv

/-- The four run invariants of a pool, from construction through any
interleaving of submitters, workers and the destructor's stop. -/
lemma reachable_invariants {n : Nat} {beh : Nat → Except String Nat}
    {s : ThreadPool} (h : ThreadPool.ReachableFrom n beh s) :
    s.claimed ++ s.tasks = List.range s.nextId ∧
    (WPhase.done ∈ s.workers → s.stop = true ∧ s.tasks = []) ∧
    (∀ x, List.count x s.executed + List.count x (runningIds s.workers) =
      List.count x s.claimed) ∧
    (∀ t ∈ s.executed, s.futures t = some (beh t)) := by
  have h2 : Relation.ReflTransGen (ThreadPool.Step beh) (ThreadPool.init n) s := h
  clear h
  induction h2 with
  | refl =>
      refine ⟨rfl, ?_, ?_, ?_⟩
      · intro hdone
        have := List.eq_of_mem_replicate hdone
        exact absurd this (by simp)
      · intro x
        simp [ThreadPool.init, runningIds_replicate_waiting]
      · intro t ht
        exact absurd ht (List.not_mem_nil t)
  | tail hab hbc ih =>
      obtain ⟨i1, i2, i3, i4⟩ := ih
      exact ⟨step_claimed_tasks hbc i1, step_done_stop hbc i2,
        step_executed_claimed hbc i3, step_futures_executed hbc i4⟩

/-- Demonstration task behaviour: task 0 throws, every other task returns
42. -/
def behDemo : Nat → Except String Nat :=
  fun t => if t = 0 then Except.error "boom" else Except.ok 42

/-- Final state of a two-task run on a one-worker pool: both tasks enqueued,
claimed in submission order and executed; the worker is back to waiting. -/
def twoTaskEndState (beh : Nat → Except String Nat) : ThreadPool where
  tasks := []
  stop := false
  nextId := 2
  workers := [WPhase.waiting]
  futures := fun u =>
    if u = 1 then some (beh 1) else if u = 0 then some (beh 0) else none
  claimed := [0, 1]
  executed := [0, 1]

lemma twoTask_reachable (beh : Nat → Except String Nat) :
    ThreadPool.ReachableFrom 1 beh (twoTaskEndState beh) := by
  show Relation.ReflTransGen _ _ _
  refine Relation.ReflTransGen.head (ThreadPool.Step.enqueue _ rfl) ?_
  refine Relation.ReflTransGen.head (ThreadPool.Step.enqueue _ rfl) ?_
  refine Relation.ReflTransGen.head
    (ThreadPool.Step.claim _ [] [] 0 [1] rfl rfl) ?_
  refine Relation.ReflTransGen.head (ThreadPool.Step.finish _ [] [] 0 rfl) ?_
  refine Relation.ReflTransGen.head
    (ThreadPool.Step.claim _ [] [] 1 [] rfl rfl) ?_
  refine Relation.ReflTransGen.head (ThreadPool.Step.finish _ [] [] 1 rfl) ?_
  exact Relation.ReflTransGen.refl

/-- A drained, stopped, fully joined one-worker pool: its one task was
enqueued, claimed, executed, then the destructor stopped the pool and the
worker exited. -/
def drainedPool : ThreadPool where
  tasks := []
  stop := true
  nextId := 1
  workers := [WPhase.done]
  futures := fun u => if u = 0 then some (behDemo 0) else none
  claimed := [0]
  executed := [0]

lemma drainedPool_reachable : ThreadPool.ReachableFrom 1 behDemo drainedPool := by
  show Relation.ReflTransGen _ _ _
  refine Relation.ReflTransGen.head (ThreadPool.Step.enqueue _ rfl) ?_
  refine Relation.ReflTransGen.head
    (ThreadPool.Step.claim _ [] [] 0 [] rfl rfl) ?_
  refine Relation.ReflTransGen.head (ThreadPool.Step.finish _ [] [] 0 rfl) ?_
  refine Relation.ReflTransGen.head (ThreadPool.Step.setStop _) ?_
  refine Relation.ReflTransGen.head
    (ThreadPool.Step.exit _ [] [] rfl rfl rfl) ?_
  exact Relation.ReflTransGen.refl

/-- A one-worker pool whose single queued task has been claimed and is still
being executed: the queue is observed empty while work is in flight. -/
def busyPool : ThreadPool where
  tasks := []
  stop := false
  nextId := 1
  workers := [WPhase.running 0]
  futures := fun _ => none
  claimed := [0]
  executed := []

lemma busyPool_reachable (beh : Nat → Except String Nat) :
    ThreadPool.ReachableFrom 1 beh busyPool := by
  show Relation.ReflTransGen _ _ _
  refine Relation.ReflTransGen.head (ThreadPool.Step.enqueue _ rfl) ?_
  refine Relation.ReflTransGen.head
    (ThreadPool.Step.claim _ [] [] 0 [] rfl rfl) ?_
  exact Relation.ReflTransGen.refl

/-- The `WaitForTasks` loop returns only on an empty observation of the
queue. -/
lemma waitForTasks_observes_empty :
    ∀ obs : List (List Nat), ThreadPool.WaitForTasks obs = true → [] ∈ obs := by
  intro obs h
  induction obs with
  | nil => exact absurd h (by simp [ThreadPool.WaitForTasks])
  | cons q rest ih =>
      by_cases hq : q.isEmpty
      · rw [List.isEmpty_iff] at hq
        rw [hq]
        exact List.mem_cons_self _ _
      · rw [ThreadPool.WaitForTasks, if_neg hq] at h
        exact List.mem_cons_of_mem _ (ih h)

/-- Claim C1: calling `Enqueue` after the pool's stop flag has been set
throws the distinct error `"Enqueue on stopped ThreadPool"`, appends nothing
to the queue, and leaves the pool state (queue, futures, execution record)
exactly unchanged, so the rejected task is never queued and never executed. -/
theorem enqueue_after_stop_fails (s : ThreadPool) (h : s.stop = true) :
    s.Enqueue = (s, Except.error "Enqueue on stopped ThreadPool") ∧
    s.Enqueue.1.tasks = s.tasks ∧ s.Enqueue.1.executed = s.executed := by
  simp [ThreadPool.Enqueue, h]

/-- Witness for `enqueue_after_stop_fails`: a concrete stopped pool. -/
theorem enqueue_after_stop_fails_witness :
    stoppedPool.stop = true ∧
    stoppedPool.Enqueue =
      (stoppedPool, Except.error "Enqueue on stopped ThreadPool") :=
  ⟨rfl, (enqueue_after_stop_fails stoppedPool rfl).1⟩

/-- Counterexample to claim C5: the constructor neither rejects
`threadCount = 0` nor clamps it to 1 - `ThreadPool(0)` constructs
successfully and has zero worker threads, so not every successfully
constructed pool has at least one worker. -/
theorem zero_thread_pool_cex :
    (ThreadPool.init 0).GetThreadCount = 0 ∧
    ¬ 1 ≤ (ThreadPool.init 0).GetThreadCount := by
  constructor
  · rfl
  · decide

/-- Claim C5 as amended: the constructor performs no validation of
`threadCount`; for every requested count `n`, including 0, it successfully
constructs a pool with exactly `n` worker threads. -/
theorem constructor_spawns_exact_count (n : Nat) :
    (ThreadPool.init n).GetThreadCount = n := by
  simp [ThreadPool.init, ThreadPool.GetThreadCount]

/-- Claim C7: for the process-wide accessor, a second `InitializeThreadPool`
call is silently ignored (the handle is unchanged and the pool keeps the
first call's thread count, with no error reported), and `GetThreadPool` with
no existing pool creates one with the documented default of 3 threads. -/
theorem global_accessor_first_wins (n1 n2 : Nat) :
    InitializeThreadPool (InitializeThreadPool none n1) n2 =
      InitializeThreadPool none n1 ∧
    InitializeThreadPool none n1 = some (ThreadPool.init n1) ∧
    (ThreadPool.init n1).GetThreadCount = n1 ∧
    (GetThreadPool none).2 = ThreadPool.init 3 ∧
    (GetThreadPool none).2.GetThreadCount = 3 := by
  refine ⟨rfl, rfl, ?_, rfl, rfl⟩
  simp [ThreadPool.init, ThreadPool.GetThreadCount]

/-- Claim C8: `ShutdownThreadPool` is idempotent - after any call, a second
call leaves the handle cleared, reports no error, and joins zero worker
threads (no double-join); calling it when nothing was ever initialized is a
no-op that joins nothing. -/
theorem shutdown_idempotent (g : Option ThreadPool) :
    ShutdownThreadPool (ShutdownThreadPool g).1 = (none, 0) ∧
    (ShutdownThreadPool (ShutdownThreadPool g).1).2 = 0 ∧
    ShutdownThreadPool none = (none, 0) := by
  cases g <;> exact ⟨rfl, rfl, rfl⟩

/-- Counterexample to claim C9: on an OS where the configured-processor count
does not describe the CPUs currently available to the process (here: 2
configured processors, but only CPU 0 available, e.g. CPU 1 offline or
excluded by a cpuset), the mask `ResetCoreAffinity` builds from
`sysconf(_SC_NPROCESSORS_CONF)` is not the set of CPUs available to the
process. -/
theorem resetAffinity_not_available_cex :
    ResetCoreAffinity ⟨2, {0}⟩ ≠ releaseAffinityMask ⟨2, {0}⟩ := by
  decide

/-- Claim C9 as amended: `ResetCoreAffinity` sets the calling thread's mask
to exactly `{0, ..., N - 1}` where `N = sysconf(_SC_NPROCESSORS_CONF)` is
queried dynamically at call time (not hard-coded); this equals the set of
logical CPUs currently available to the process exactly when that set is
`{0, ..., N - 1}`. -/
theorem resetAffinity_range_conf (env : AffinityEnv) :
    (∀ i, i ∈ ResetCoreAffinity env ↔ i < env.nprocessorsConf) ∧
    (releaseAffinityMask env = Finset.range env.nprocessorsConf →
      ResetCoreAffinity env = releaseAffinityMask env) := by
  have hmem : ∀ i, i ∈ ResetCoreAffinity env ↔ i < env.nprocessorsConf := by
    intro i
    simp [ResetCoreAffinity, mem_foldl_insert, List.mem_range]
  refine ⟨hmem, fun h => ?_⟩
  rw [h]
  ext i
  simp [hmem i, Finset.mem_range]

/-- Witness for `resetAffinity_range_conf`: a machine with 4 configured
processors, all of them available to the process. -/
theorem resetAffinity_range_conf_witness :
    (0 ∈ ResetCoreAffinity ⟨4, Finset.range 4⟩ ↔ 0 < 4) ∧
    ResetCoreAffinity ⟨4, Finset.range 4⟩ =
      releaseAffinityMask ⟨4, Finset.range 4⟩ :=
  ⟨(resetAffinity_range_conf ⟨4, Finset.range 4⟩).1 0,
   (resetAffinity_range_conf ⟨4, Finset.range 4⟩).2 rfl⟩

/-- Claim C2: a worker exits its loop only in a state where the stop flag is
set and the queue is empty (first conjunct: any step that increases the
number of exited workers starts from such a state); and for a pool with at
least one worker, once teardown completes - the destructor has set the stop
flag and the join loop has seen every worker exit - every task that was ever
accepted into the queue has been executed: none is discarded (second
conjunct). -/
theorem teardown_graceful :
    (∀ (beh : Nat → Except String Nat) (s s' : ThreadPool),
        ThreadPool.Step beh s s' → numDone s.workers < numDone s'.workers →
        s.stop = true ∧ s.tasks = []) ∧
    (∀ (n : Nat) (beh : Nat → Except String Nat) (s : ThreadPool),
        ThreadPool.ReachableFrom n beh s → s.workers ≠ [] →
        (∀ w ∈ s.workers, w = WPhase.done) →
        s.stop = true ∧ s.tasks = [] ∧
        s.executed.Perm (List.range s.nextId)) := by
  constructor
  · intro beh s s' hstep hlt
    cases hstep with
    | enqueue hstop =>
        rw [show (s.Enqueue.1.workers = s.workers) by
          simp [ThreadPool.Enqueue, hstop]] at hlt
        exact absurd hlt (lt_irrefl _)
    | claim w1 w2 t rest hw ht =>
        rw [hw] at hlt
        simp only [numDone, List.countP_append, List.countP_cons, isDone] at hlt
        omega
    | finish w1 w2 t hw =>
        rw [hw] at hlt
        simp only [numDone, List.countP_append, List.countP_cons, isDone] at hlt
        omega
    | exit w1 w2 hw hstop hempty => exact ⟨hstop, hempty⟩
    | setStop => exact absurd hlt (lt_irrefl _)
  · intro n beh s hr hne hall
    obtain ⟨inv1, inv3, inv2, _⟩ := reachable_invariants hr
    have hdone : WPhase.done ∈ s.workers := by
      cases hws : s.workers with
      | nil => exact absurd hws hne
      | cons a l =>
          have ha : a = WPhase.done :=
            hall a (by rw [hws]; exact List.mem_cons_self _ _)
          rw [ha]
          exact List.mem_cons_self _ _
    obtain ⟨hstop, hempty⟩ := inv3 hdone
    have hclaimed : s.claimed = List.range s.nextId := by
      rw [← inv1, hempty, List.append_nil]
    have hrun : runningIds s.workers = [] := by
      refine List.filterMap_eq_nil_iff.mpr fun w hw => ?_
      rw [hall w hw]
    have hperm : s.executed.Perm s.claimed := by
      refine List.perm_iff_count.mpr fun x => ?_
      have h2 := inv2 x
      rw [hrun] at h2
      simpa using h2
    exact ⟨hstop, hempty, hclaimed ▸ hperm⟩

/-- Witness for `teardown_graceful`: (1) the exit step out of a concrete
stopped pool happens with the stop flag set and the queue empty; (2) at the
end of the concrete drained run, the one accepted task has been executed. -/
theorem teardown_graceful_witness :
    (stoppedPool.stop = true ∧ stoppedPool.tasks = []) ∧
    (drainedPool.stop = true ∧ drainedPool.tasks = [] ∧
      drainedPool.executed.Perm (List.range drainedPool.nextId)) := by
  constructor
  · exact teardown_graceful.1 behDemo stoppedPool
      { stoppedPool with workers := [] ++ WPhase.done :: [] }
      (ThreadPool.Step.exit _ [] [] rfl rfl rfl) (by decide)
  · exact teardown_graceful.2 1 behDemo drainedPool drainedPool_reachable
      (by decide) (by decide)

/-- Claim C3: the queue is strict FIFO in claim order.  For every reachable
state, the list of claimed task ids is an initial segment of the submission
order (`claimed = range claimed.length`); consequently, for every pair of
tasks where A's `Enqueue` completed before B's began (id A < id B), if B has
been dequeued then A was dequeued at an earlier position. -/
theorem fifo_claim_order (n : Nat) (beh : Nat → Except String Nat)
    (s : ThreadPool) (h : ThreadPool.ReachableFrom n beh s) :
    s.claimed = List.range s.claimed.length ∧
    ∀ a b : Nat, a < b → b ∈ s.claimed →
      ∃ i j : Nat, i < j ∧ s.claimed[i]? = some a ∧ s.claimed[j]? = some b := by
  have inv1 := (reachable_invariants h).1
  have hlen : s.claimed.length ≤ s.nextId := by
    have h2 := congrArg List.length inv1
    simp only [List.length_append, List.length_range] at h2
    omega
  have hpre : s.claimed = List.range s.claimed.length := by
    have h2 : (s.claimed ++ s.tasks).take s.claimed.length = s.claimed :=
      List.take_left _ _
    rw [inv1, List.take_range, Nat.min_eq_left hlen] at h2
    exact h2.symm
  refine ⟨hpre, fun a b hab hb => ?_⟩
  rw [hpre] at hb
  rw [List.mem_range] at hb
  refine ⟨a, b, hab, ?_, ?_⟩
  · rw [hpre, List.getElem?_range (lt_trans hab hb)]
  · rw [hpre, List.getElem?_range hb]

/-- Witness for `fifo_claim_order`: in the two-task demonstration run, task
0 (submitted first) is claimed at an earlier position than task 1. -/
theorem fifo_claim_order_witness :
    (twoTaskEndState behDemo).claimed =
      List.range (twoTaskEndState behDemo).claimed.length ∧
    (0 : Nat) < 1 ∧ 1 ∈ (twoTaskEndState behDemo).claimed ∧
    ∃ i j : Nat, i < j ∧ (twoTaskEndState behDemo).claimed[i]? = some 0 ∧
      (twoTaskEndState behDemo).claimed[j]? = some 1 := by
  obtain ⟨h1, h2⟩ :=
    fifo_claim_order 1 behDemo (twoTaskEndState behDemo) (twoTask_reachable behDemo)
  exact ⟨h1, by decide, by decide, h2 0 1 (by decide) (by decide)⟩

/-- Claim C4: for every reachable state, every task that has been executed
has its body's outcome - a thrown exception as much as a normal return -
stored in its future, to be observed when the caller retrieves the result;
and in the concrete scenario where task 0's body throws and task 1's body
returns 42, a run exists in which both tasks get executed, task 0's future
delivers the captured error, task 1's future yields 42, and the worker that
ran the failing task is back to waiting (it did not terminate). -/
theorem task_failure_isolated (n : Nat) (beh : Nat → Except String Nat)
    (s : ThreadPool) (e : String) (v : Nat)
    (hr : ThreadPool.ReachableFrom n beh s)
    (h0 : beh 0 = Except.error e) (h1 : beh 1 = Except.ok v) :
    (∀ t ∈ s.executed, s.futures t = some (beh t)) ∧
    ThreadPool.ReachableFrom 1 beh (twoTaskEndState beh) ∧
    (twoTaskEndState beh).futures 0 = some (Except.error e) ∧
    (twoTaskEndState beh).futures 1 = some (Except.ok v) ∧
    (twoTaskEndState beh).workers = [WPhase.waiting] ∧
    (twoTaskEndState beh).executed = [0, 1] := by
  refine ⟨(reachable_invariants hr).2.2.2, twoTask_reachable beh, ?_, ?_, rfl, rfl⟩
  · simp [twoTaskEndState, h0]
  · simp [twoTaskEndState, h1]

/-- Witness for `task_failure_isolated`: the demonstration behaviour where
task 0 throws `"boom"` and task 1 returns 42. -/
theorem task_failure_isolated_witness :
    behDemo 0 = Except.error "boom" ∧ behDemo 1 = Except.ok 42 ∧
    (twoTaskEndState behDemo).futures 0 = some (Except.error "boom") ∧
    (twoTaskEndState behDemo).futures 1 = some (Except.ok 42) ∧
    (twoTaskEndState behDemo).workers = [WPhase.waiting] := by
  obtain ⟨-, -, hf0, hf1, hw, -⟩ :=
    task_failure_isolated 1 behDemo (twoTaskEndState behDemo) "boom" 42
      (twoTask_reachable behDemo) rfl rfl
  exact ⟨rfl, rfl, hf0, hf1, hw⟩

/-- Claim C6: `WaitForTasks` returns only after one of its under-the-lock
observations of the queue found it empty; and it is only a weak drain
barrier: there is a reachable state, here `busyPool`, in which the queue is
observed empty - so `WaitForTasks` returns - while a task that was already
dequeued is still executing on a worker (its future not yet resolved). -/
theorem waitForTasks_weak_barrier (obs : List (List Nat))
    (beh : Nat → Except String Nat) (h : ThreadPool.WaitForTasks obs = true) :
    [] ∈ obs ∧
    ThreadPool.ReachableFrom 1 beh busyPool ∧
    ThreadPool.WaitForTasks [busyPool.tasks] = true ∧
    WPhase.running 0 ∈ busyPool.workers ∧ busyPool.futures 0 = none := by
  refine ⟨waitForTasks_observes_empty obs h, busyPool_reachable beh, rfl, ?_, rfl⟩
  exact List.mem_cons_self _ _

/-- Witness for `waitForTasks_weak_barrier`: an observation sequence that
sees the queue `[0]` and then the empty queue. -/
theorem waitForTasks_weak_barrier_witness :
    ThreadPool.WaitForTasks [[0], []] = true ∧
    [] ∈ [[(0 : Nat)], []] ∧ busyPool.tasks = [] ∧
    WPhase.running 0 ∈ busyPool.workers ∧ busyPool.futures 0 = none := by
  have h := waitForTasks_weak_barrier [[0], []] behDemo (by decide)
  exact ⟨by decide, h.1, rfl, h.2.2.2.1, h.2.2.2.2⟩

/-- Claim C10, evaluated at the failing input: the round-up
`(size + alignment - 1) & ~(alignment - 1)` works for ordinary sizes
(100 rounds to 128 with 64-byte alignment, and 0 rounds to 0, not to one
alignment unit), but at `size = SIZE_MAX = 2^64 - 1` the addition wraps in
`size_t` and the size passed to the underlying allocator is 0 - not the
requested size rounded up - so a successful allocation is smaller than
requested, contradicting the code's own comment
`"Align size up to the next multiple of alignment"`. -/
theorem alignedSize_overflow_bug :
    alignedSize 100 64 = 128 ∧
    alignedSize 0 64 = 0 ∧
    alignedSize (2 ^ 64 - 1) 64 = 0 ∧
    ¬ 2 ^ 64 - 1 ≤ alignedSize (2 ^ 64 - 1) 64 := by
  refine ⟨by decide, by decide, by decide, by decide⟩

end Common
